import Mathlib

/-!
# Verification of the brainstormer answer-collection engine

Shallow embedding of the core of the `vtemian/brainstormer` repository:

* `src/session/waiter.ts` — `WaiterManager` (`registerWaiter`, `notifyFirst`,
  `notifyAll`, the cleanup closure) and `waitForResponse`;
* `src/tools/brainstorm.ts` — `generateId`, `collectAnswers`,
  `waitForReviewApproval`, and the result classification of
  `await_brainstorm_complete`;
* the `SessionManager` answer-ordering semantics (`pushQuestion`,
  `handleWsMessage`, `getNextAnswer`), whose implementation file is not part
  of the sources at hand and is therefore modelled from the specification.

JavaScript is single threaded: asynchronous interleavings are modelled as
sequences of atomic events (a delivered notification, a fired timer), and
promise-producing functions as state machines driven by those events.
Callbacks stored in a `WaiterManager` are identified by natural numbers; a
callback body that itself touches the manager is modelled by the list of
manager operations it performs when invoked.
-/

namespace Brainstormer

/-! ## Waiter registry (`src/session/waiter.ts`)

The manager keeps, per key, an array of callbacks.  All claims below are
about the behaviour on one fixed key, so the state is just the list of
callbacks registered for that key, in registration (FIFO) order.  Callbacks
are identified by `Nat`. -/

/-- Source `registerWaiter` appends the callback to the key's list
(`this.waiters.set(key, [...current, callback])`). -/
def registerWaiter (l : List Nat) (c : Nat) : List Nat :=
  l ++ [c]

/-- The cleanup closure returned by `registerWaiter`: `indexOf` the callback
and, when present, rebuild the list without that first occurrence
(`[...waiters.slice(0, idx), ...waiters.slice(idx + 1)]`); when absent the
list is unchanged. -/
def removeWaiter (l : List Nat) (c : Nat) : List Nat :=
  match l with
  | [] => []
  | x :: xs => if x = c then xs else x :: removeWaiter xs c

/-- One `notifyFirst` call on a key with pure callbacks: the earliest
registered callback (the array head) is invoked and the stored list becomes
the precomputed `rest`.  Returns the invoked callback, if any, with the new
list. -/
def notifyFirstStep (l : List Nat) : Option Nat × List Nat :=
  match l with
  | [] => (none, [])
  | first :: rest => (some first, rest)

/-- Iterated notification: `n` successive `notifyFirst` calls with pure callbacks: the list of
callbacks invoked, in order, paired with the final stored list. -/
def notifyFirstIter (n : Nat) (l : List Nat) : List Nat × List Nat :=
  match n, l with
  | 0, l => ([], l)
  | _ + 1, [] => ([], [])
  | n + 1, first :: rest =>
    let out := notifyFirstIter n rest
    (first :: out.1, out.2)

/-- A manager operation a callback may perform, synchronously, while it is
being invoked: register a new callback on the same key, or run the cleanup
closure of some callback on the same key. -/
inductive MgrOp where
  | register (c : Nat)
  | cancel (c : Nat)
  deriving DecidableEq, Repr

/-- Effect of one manager operation on the stored list for the key. -/
def applyOp (l : List Nat) : MgrOp → List Nat
  | .register c => registerWaiter l c
  | .cancel c => removeWaiter l c

/-- Effect of a sequence of manager operations. -/
def applyOps (l : List Nat) (ops : List MgrOp) : List Nat :=
  ops.foldl applyOp l

/-- Outcome of a notification on a key, recording which callbacks were
invoked, what the stored list held while the callbacks ran, and what it
holds after the notification returns. -/
structure NotifyOut where
  invoked : List Nat
  during : List Nat
  after : List Nat
  deriving DecidableEq, Repr

/-- Source `notifyFirst` with effectful callbacks (`eff c` is the list of manager
operations callback `c` performs when invoked).  The source destructures
`const [first, ...rest] = waiters`, invokes `first(data)` — during which the
map still holds the entry snapshot, updated by whatever operations the
callback performs — and then writes back the precomputed `rest`
(`this.waiters.delete(key)` when `rest` is empty, `set(key, rest)`
otherwise).  The write-back therefore overwrites anything the callback did
to the key. -/
def notifyFirstRun (eff : Nat → List MgrOp) (l : List Nat) : NotifyOut :=
  match l with
  | [] => ⟨[], [], []⟩
  | first :: rest =>
    ⟨[first], applyOps (first :: rest) (eff first), rest⟩

/-- Source `notifyAll` with effectful callbacks: the `for (const waiter of waiters)`
loop iterates the entry snapshot (the old array object), each invocation
updating the stored map entry, and afterwards `this.waiters.delete(key)`
empties the entry unconditionally. -/
def notifyAllRun (eff : Nat → List MgrOp) (l : List Nat) : NotifyOut :=
  ⟨l, l.foldl (fun m c => applyOps m (eff c)) l, []⟩

/-! ## `waitForResponse` (`src/session/waiter.ts`)

One `waitForResponse(manager, key, timeoutMs)` call on a fresh key: it
registers a single callback (id `0`) and arms a timer.  The subsequent
atomic events are `notifyFirst` deliveries on the key and the timer firing.
The registered callback clears the timer and resolves `{ok: true, data}`;
the timer handler runs the cleanup closure and resolves
`{ok: false, reason: "timeout"}`.  Resolutions are collected in a list so
that "resolves exactly once" is the length of that list. -/

/-- Type `WaitResult<T>` from the source:
`{ ok: true; data: T } | { ok: false; reason: "timeout" }`. -/
inductive WaitResult (T : Type) where
  | ok (data : T)
  | timeout
  deriving DecidableEq, Repr

/-- State of one `waitForResponse` call: the key's waiter list (the call's
own callback has id `0`), whether its timer is still armed, and every
resolution performed so far. -/
structure WfrState (T : Type) where
  waiters : List Nat
  timerActive : Bool
  resolutions : List (WaitResult T)
  deriving DecidableEq, Repr

/-- Atomic events that can reach the call: a `notifyFirst(key, d)` from
`handleIncoming`, or the armed timer firing. -/
inductive WfrEvent (T : Type) where
  | notify (d : T)
  | timerFire
  deriving DecidableEq, Repr

/-- State right after `waitForResponse` returns its promise: callback
registered, timer armed, nothing resolved. -/
def wfrInit (T : Type) : WfrState T :=
  ⟨[0], true, []⟩

/-- One atomic event.  `notify d` is a `notifyFirst` on the key: the list
head is invoked and removed; when the head is this call's callback it clears
the timer and resolves `ok d`.  `timerFire` runs the timer handler when the
timer is still armed: the cleanup closure removes the callback from the list
and the promise resolves `timeout`. -/
def wfrStep (s : WfrState T) : WfrEvent T → WfrState T
  | .notify d =>
    match s.waiters with
    | [] => s
    | first :: rest =>
      if first = 0 then
        ⟨rest, false, s.resolutions ++ [WaitResult.ok d]⟩
      else
        { s with waiters := rest }
  | .timerFire =>
    if s.timerActive then
      ⟨removeWaiter s.waiters 0, false, s.resolutions ++ [WaitResult.timeout]⟩
    else
      s

/-- The state after a sequence of events hits a fresh `waitForResponse`. -/
def wfrRun (T : Type) (evs : List (WfrEvent T)) : WfrState T :=
  evs.foldl wfrStep (wfrInit T)

/-! ## Identifier generation (`src/tools/brainstorm.ts`, `generateId`)

```
function generateId(prefix: string): string {
  const chars = "abcdefghijklmnopqrstuvwxyz0123456789";
  let result = `$\x7bprefix\x7d_`;
  for (let i = 0; i < 8; i++) {
    result += chars.charAt(Math.floor(Math.random() * chars.length));
  }
  return result;
}
```

`Math.floor(Math.random() * 36)` is a uniformly random index in `0..35`;
each call to `generateId` is determined by its 8 drawn indices, which we
make explicit as a `List (Fin 36)` argument.  Nothing in the source checks
freshly generated ids against previously issued ones. -/

/-- The `chars` alphabet of `generateId`. -/
def idChars : List Char := "abcdefghijklmnopqrstuvwxyz0123456789".toList

theorem idChars_length : idChars.length = 36 := by decide

theorem idChars_nodup : idChars.Nodup := by decide

/-- The character run built by `generateId`'s loop: one alphabet character
per drawn index. -/
def idSuffix (draws : List (Fin 36)) : String :=
  String.mk (draws.map fun d => idChars.get (Fin.cast idChars_length.symm d))

/-- Source `generateId`: the given prefix, an underscore, then one alphabet
character per drawn index. -/
def generateId (pre : String) (draws : List (Fin 36)) : String :=
  pre ++ "_" ++ idSuffix draws

/-! ## Session/question registry ordering (`src/session/manager.ts`)

The `SessionManager` implementation file is not among the sources at hand;
only its integration test (`tests/integration/streaming-answers.test.ts`)
and its callers are.  The definitions below are therefore modelled from the
specification. -/

/-- JavaScript-ish values, for answer payloads and review responses. -/
inductive JVal where
  | null
  | bool (b : Bool)
  | num (n : Int)
  | str (s : String)
  | arr (elems : List JVal)
  | obj (fields : List (String × JVal))

/-- Modelled from the spec: question lifecycle status,
`status ∈ {pending, answered, cancelled}`. -/
inductive QStatus where
  | pending
  | answered
  | cancelled
  deriving DecidableEq, BEq, Repr

/-- Modelled from the spec: one question of a session — id, status, the
answer payload once answered, whether `getNextAnswer` already consumed it,
and the arrival index assigned when its answer was recorded. -/
structure MQuestion where
  qid : String
  status : QStatus
  answer : Option JVal
  consumed : Bool
  arrival : Option Nat

/-- Modelled from the spec: a session — its questions in insertion order
plus the next arrival index for incoming answers. -/
structure MSession where
  questions : List MQuestion
  nextArrival : Nat

def emptySession : MSession := ⟨[], 0⟩

/-- Modelled from the spec: `pushQuestion` appends a fresh question in
`pending` status. -/
def pushQuestion (s : MSession) (q : String) : MSession :=
  { s with questions := s.questions ++ [⟨q, QStatus.pending, none, false, none⟩] }

/-- Modelled from the spec: `handleIncoming(sessionId, {id, answer})` — when
the question exists and is `pending` it transitions to `answered`, stores
the payload and is stamped with the next arrival index; any other message is
ignored (idempotent against duplicate delivery). -/
def handleIncoming (s : MSession) (q : String) (ans : JVal) : MSession :=
  if s.questions.any (fun x => x.qid == q && x.status == QStatus.pending) then
    { questions := s.questions.map (fun x =>
        if x.qid == q && x.status == QStatus.pending then
          { x with status := QStatus.answered, answer := some ans,
                   arrival := some s.nextArrival }
        else x),
      nextArrival := s.nextArrival + 1 }
  else s

/-- Modelled from the spec: outcome of a non-blocking `getNextAnswer` —
either a consumed answer (`completed: true` with `question_id` and
`response`), or `completed: false` with status `pending` (questions still
awaiting answers) or `none_pending` (nothing left to wait for). -/
inductive NextAnswer where
  | found (qid : String) (resp : JVal)
  | pendingWork
  | nonePending

def arrivalOf (x : MQuestion) : Nat := x.arrival.getD 0

/-- The answered, not-yet-consumed question whose answer arrived earliest. -/
def earliestAnswered (l : List MQuestion) : Option MQuestion :=
  l.foldl (fun acc x =>
    if x.status == QStatus.answered && !x.consumed then
      match acc with
      | none => some x
      | some a => if arrivalOf x < arrivalOf a then some x else some a
    else acc) none

/-- Modelled from the spec: `getNextAnswer(sessionId, block := false)` —
"returns answers in arrival order, not in original question-push order":
the oldest-by-arrival answered unconsumed question is marked consumed and
returned; otherwise the call reports `pending` when some question is still
awaiting an answer and `none_pending` when none is. -/
def getNextAnswer (s : MSession) : NextAnswer × MSession :=
  match earliestAnswered s.questions with
  | some x =>
    (NextAnswer.found x.qid (x.answer.getD JVal.null),
     { s with questions := s.questions.map (fun y =>
         if y.qid == x.qid then { y with consumed := true } else y) })
  | none =>
    if s.questions.any (fun y => y.status == QStatus.pending) then
      (NextAnswer.pendingWork, s)
    else
      (NextAnswer.nonePending, s)

/-! ## The orchestration loop (`src/tools/brainstorm.ts`, `collectAnswers`)

`collectAnswers` interacts with the state store (`stateStore.getSession`),
the session registry (`sessions.getNextAnswer`) and the spawned
`processAnswer` tasks.  Those collaborators are modelled as oracles indexed
by call number: `stQ k` is the state snapshot returned by the `k`-th
`getSession` call, `ansQ k` the result of the `k`-th `getNextAnswer` call,
and `tOut k` the eventual outcome of the task spawned for the `k`-th
answer.  The loop additionally records a trace of task events —
spawning a task, awaiting a set of tasks (`Promise.all`), and reading the
final state — to express the claims about in-flight work. -/

/-- Branch status in the state store: `"exploring" | "done"`. -/
inductive BStatus where
  | exploring
  | done
  deriving DecidableEq, BEq, Repr

/-- A state-store snapshot: the statuses of the run's branches
(`Object.values(state.branches)`). -/
structure BState where
  branches : List BStatus
  deriving DecidableEq, Repr

/-- Predicate `isComplete` from `collectAnswers`: an unknown session (`!state`) counts
as complete, otherwise every branch must be `done`. -/
def isCompleteOf : Option BState → Bool
  | none => true
  | some st => st.branches.all (fun b => b == BStatus.done)

/-- The `status` field of a non-completed `getNextAnswer` result, as far as
`collectAnswers` distinguishes it: `"none_pending"`, `"timeout"`, or
anything else (the loop just continues on those). -/
inductive GStatus where
  | none_pending
  | timeout
  | pending
  deriving DecidableEq, BEq, Repr

/-- A `getNextAnswer` result as read by `collectAnswers` and
`waitForReviewApproval`: `completed`, `status`, `question_id`, `response`
(`none` models `undefined`). -/
structure GNARes where
  completed : Bool
  status : GStatus
  question_id : Option String
  response : Option JVal

/-- The `!question_id` guard: `undefined` or the empty string are falsy. -/
def qidMissing : Option String → Bool
  | none => true
  | some s => s == ""

/-- Task events of one `collectAnswers` run. -/
inductive Ev where
  | spawn (t : Nat)
  | awaitTasks (ts : List Nat)
  | readState (s : Option BState)
  deriving DecidableEq, Repr

/-- Loop bookkeeping: `iterations` as in the source, the number of
`getSession` and `getNextAnswer` calls made so far, the ids of tasks in the
`pendingProcessing` array, and the event trace. -/
structure LoopSt where
  iterations : Nat
  sCount : Nat
  aCount : Nat
  pending : List Nat
  trace : List Ev
  deriving DecidableEq, Repr

def initLoopSt : LoopSt := ⟨0, 0, 0, [], []⟩

/-- The `.catch(error => console.error(...))` attached to every spawned
`processAnswer` promise: a rejection is swallowed and the task settles
successfully. -/
def caught (r : Except String Unit) : Except String Unit :=
  match r with
  | Except.error _ => Except.ok ()
  | Except.ok _ => Except.ok ()

/-- A `Promise.all` over settled task outcomes: rejects with the first error,
resolves otherwise. -/
def awaitAllE : List (Except String Unit) → Except String Unit
  | [] => Except.ok ()
  | Except.error e :: _ => Except.error e
  | Except.ok _ :: rest => awaitAllE rest

/-- The `while (iterations < maxIterations)` loop of `collectAnswers`, fuel
being the remaining iteration budget.  Each iteration increments
`iterations`, checks `isComplete` (one `getSession` call) and breaks when it
holds; otherwise it fetches the next answer.  A non-completed result with
status `none_pending` awaits all pending tasks and continues; `timeout`
breaks; any other status continues.  A completed result with a missing
question id or an undefined response is skipped; otherwise a `processAnswer`
task — wrapped in `caught` — is spawned and tracked in `pending`. -/
def loopGo (stQ : Nat → Option BState) (ansQ : Nat → GNARes)
    (tOut : Nat → Except String Unit) : Nat → LoopSt → Except String LoopSt
  | 0, st => Except.ok st
  | fuel + 1, st =>
    let st1 : LoopSt :=
      { st with iterations := st.iterations + 1, sCount := st.sCount + 1 }
    if isCompleteOf (stQ st.sCount) then Except.ok st1
    else
      let ans := ansQ st.aCount
      let st2 : LoopSt := { st1 with aCount := st1.aCount + 1 }
      if ans.completed = false then
        match ans.status with
        | GStatus.none_pending =>
          match awaitAllE (st2.pending.map (fun i => caught (tOut i))) with
          | Except.error e => Except.error e
          | Except.ok _ =>
            loopGo stQ ansQ tOut fuel
              { st2 with pending := [],
                         trace := st2.trace ++ [Ev.awaitTasks st2.pending] }
        | GStatus.timeout => Except.ok st2
        | GStatus.pending => loopGo stQ ansQ tOut fuel st2
      else
        if qidMissing ans.question_id || ans.response.isNone then
          loopGo stQ ansQ tOut fuel st2
        else
          loopGo stQ ansQ tOut fuel
            { st2 with pending := st2.pending ++ [st.aCount],
                       trace := st2.trace ++ [Ev.spawn st.aCount] }

/-- What `collectAnswers` returns, together with the run's task-event
trace. -/
structure CollectResult where
  iterations : Nat
  answerCalls : Nat
  state : Option BState
  allComplete : Bool
  trace : List Ev
  deriving DecidableEq, Repr

/-- Source `collectAnswers`: run the loop, `await Promise.all(pendingProcessing)`,
then read the final state and compute `allComplete`
(`state ? every done : false`). -/
def collectAnswers (stQ : Nat → Option BState) (ansQ : Nat → GNARes)
    (tOut : Nat → Except String Unit) (maxIterations : Nat) :
    Except String CollectResult :=
  match loopGo stQ ansQ tOut maxIterations initLoopSt with
  | Except.error e => Except.error e
  | Except.ok st =>
    match awaitAllE (st.pending.map (fun i => caught (tOut i))) with
    | Except.error e => Except.error e
    | Except.ok _ =>
      let finalState := stQ st.sCount
      Except.ok
        { iterations := st.iterations,
          answerCalls := st.aCount,
          state := finalState,
          allComplete :=
            match finalState with
            | some s => s.branches.all (fun b => b == BStatus.done)
            | none => false,
          trace := st.trace ++ [Ev.awaitTasks st.pending, Ev.readState finalState] }

/-- Source `collectAnswers` with its default `maxIterations = 50`. -/
def collectAnswersDefault (stQ : Nat → Option BState) (ansQ : Nat → GNARes)
    (tOut : Nat → Except String Unit) : Except String CollectResult :=
  collectAnswers stQ ansQ tOut 50

/-- Task ids spawned in a trace. -/
def spawnedOf : List Ev → List Nat
  | [] => []
  | Ev.spawn t :: rest => t :: spawnedOf rest
  | _ :: rest => spawnedOf rest

/-- Task ids covered by `awaitTasks` events of a trace. -/
def awaitedOf : List Ev → List Nat
  | [] => []
  | Ev.awaitTasks ts :: rest => ts ++ awaitedOf rest
  | _ :: rest => awaitedOf rest

/-! ## Review approval (`src/tools/brainstorm.ts`, `waitForReviewApproval`)
and the result classification of `await_brainstorm_complete`. -/

/-- JavaScript truthiness of a value. -/
def truthy : JVal → Bool
  | JVal.null => false
  | JVal.bool b => b
  | JVal.num n => n != 0
  | JVal.str s => s != ""
  | JVal.arr _ => true
  | JVal.obj _ => true

/-- Truthiness of a possibly-`undefined` value (`!result.response`). -/
def respTruthy : Option JVal → Bool
  | none => false
  | some v => truthy v

/-- Guard `isRecord`: a non-null, non-array object. -/
def respIsRecord : Option JVal → Bool
  | some (JVal.obj _) => true
  | _ => false

/-- Whether a value is `null`. -/
def isNullB : JVal → Bool
  | JVal.null => true
  | _ => false

/-- JavaScript `String(x)` conversion.  (Inside arrays, JS renders `null`
elements as the empty string; nested arrays are joined with commas.) -/
def jsToString : JVal → String
  | JVal.null => "null"
  | JVal.bool b => if b then "true" else "false"
  | JVal.num n => toString n
  | JVal.str s => s
  | JVal.arr l => String.intercalate "," (l.attach.map fun x =>
      if isNullB x.1 then "" else jsToString x.1)
  | JVal.obj _ => "[object Object]"
decreasing_by
  have h := List.sizeOf_lt_of_mem x.2
  simp only [JVal.arr.sizeOf_spec]
  omega

/-- Property access on an object (`response.approved` etc.). -/
def lookupField (fields : List (String × JVal)) (k : String) : Option JVal :=
  match fields.find? (fun p => p.1 == k) with
  | some p => some p.2
  | none => none

/-- Test `response.approved === true`. -/
def isTrueVal : Option JVal → Bool
  | some (JVal.bool true) => true
  | _ => false

/-- Test `response.choice === "yes"`. -/
def isYesVal : Option JVal → Bool
  | some (JVal.str s) => s == "yes"
  | _ => false

structure ReviewResult where
  approved : Bool
  feedback : String
  deriving DecidableEq, Repr

/-- The feedback computation of `waitForReviewApproval`: annotation entries
(`[section] note`, newline-joined) when `response.annotations` is a record,
otherwise `String(response.feedback || response.text)` when that expression
is truthy, otherwise the empty string. -/
def reviewFeedback (fields : List (String × JVal)) : String :=
  match lookupField fields "annotations" with
  | some (JVal.obj anns) =>
    String.intercalate "\n"
      (anns.map (fun p => "[" ++ p.1 ++ "] " ++ jsToString p.2))
  | _ =>
    let fv := lookupField fields "feedback"
    let tv := lookupField fields "text"
    if respTruthy fv then jsToString (fv.getD JVal.null)
    else if respTruthy tv then jsToString (tv.getD JVal.null)
    else ""

/-- Source `waitForReviewApproval`, as a function of the `getNextAnswer` result it
awaited: non-completed, falsy or non-record responses yield
`{approved: false, feedback: ""}`; otherwise `approved` is
`response.approved === true || response.choice === "yes"` and feedback is
computed by `reviewFeedback`. -/
def waitForReviewApprovalF (result : GNARes) : ReviewResult :=
  if !result.completed || !respTruthy result.response ||
      !respIsRecord result.response then
    ⟨false, ""⟩
  else
    let fields :=
      match result.response with
      | some (JVal.obj fields) => fields
      | _ => []
    ⟨isTrueVal (lookupField fields "approved") ||
       isYesVal (lookupField fields "choice"),
     reviewFeedback fields⟩

/-- Outcome classification of `await_brainstorm_complete.execute` after
`collectAnswers` returns: `!state` reports `"Error: Session lost"`;
`!allComplete` reports the in-progress summary; a failing
`sessions.pushQuestion` (the `try/catch`) reports the skipped-review
summary; otherwise the review result is awaited and reported. -/
inductive AwaitOutcome where
  | sessionLost
  | inProgress (iterations : Nat)
  | skippedReview
  | completion (approved : Bool) (feedback : String)
  deriving DecidableEq, Repr

def awaitBrainstormOutcome (cr : CollectResult) (pushOk : Bool)
    (review : GNARes) : AwaitOutcome :=
  match cr.state with
  | none => AwaitOutcome.sessionLost
  | some _ =>
    if !cr.allComplete then AwaitOutcome.inProgress cr.iterations
    else if !pushOk then AwaitOutcome.skippedReview
    else
      let r := waitForReviewApprovalF review
      AwaitOutcome.completion r.approved r.feedback

end Brainstormer

namespace Brainstormer

theorem removeWaiter_head (xs : List Nat) (c : Nat) :
    removeWaiter (c :: xs) c = xs := by
  simp [removeWaiter]

theorem notifyFirstIter_spec (l : List Nat) (k : Nat) :
    notifyFirstIter k l = (l.take k, l.drop k) := by
  induction k generalizing l with
  | zero => simp [notifyFirstIter]
  | succ n ih =>
    cases l with
    | nil => simp [notifyFirstIter]
    | cons x xs => simp [notifyFirstIter, ih]

/-- After the first event, a `waitForResponse` call is inert: no waiter, no
timer.  Helper for the exactly-once argument. -/
theorem wfrStep_inert (s : WfrState T) (e : WfrEvent T)
    (hw : s.waiters = []) (ht : s.timerActive = false) :
    wfrStep s e = s := by
  cases e with
  | notify d => simp [wfrStep, hw]
  | timerFire => simp [wfrStep, ht]

theorem wfrRun_from_inert (s : WfrState T) (evs : List (WfrEvent T))
    (hw : s.waiters = []) (ht : s.timerActive = false) :
    evs.foldl wfrStep s = s := by
  induction evs with
  | nil => rfl
  | cons e rest ih => simpa [wfrStep_inert s e hw ht] using ih

theorem wfrRun_notify_head (T : Type) (d : T) (rest : List (WfrEvent T)) :
    wfrRun T (WfrEvent.notify d :: rest) = ⟨[], false, [WaitResult.ok d]⟩ := by
  show (WfrEvent.notify d :: rest).foldl wfrStep (wfrInit T) = _
  rw [List.foldl_cons]
  have h1 : wfrStep (wfrInit T) (WfrEvent.notify d) =
      ⟨[], false, [WaitResult.ok d]⟩ := by
    simp [wfrStep, wfrInit]
  rw [h1]
  exact wfrRun_from_inert _ rest rfl rfl

theorem wfrRun_timer_head (T : Type) (rest : List (WfrEvent T)) :
    wfrRun T (WfrEvent.timerFire :: rest) = ⟨[], false, [WaitResult.timeout]⟩ := by
  show (WfrEvent.timerFire :: rest).foldl wfrStep (wfrInit T) = _
  rw [List.foldl_cons]
  have h1 : wfrStep (wfrInit T) WfrEvent.timerFire =
      ⟨[], false, [WaitResult.timeout]⟩ := by
    simp [wfrStep, wfrInit, removeWaiter]
  rw [h1]
  exact wfrRun_from_inert _ rest rfl rfl

/-- C1: for every key and timeout, `waitForResponse` resolves exactly once —
with the notified payload when a notification arrives first, with the
timeout outcome when the timer fires first.  Resolving via notification
cancels the timer and (through `notifyFirst`) removes the registration;
resolving via timeout deregisters the waiter via the cleanup closure.  After
either path no waiter and no armed timer remain for the registration, and no
later event can produce a second resolution. -/
theorem c1_wait_for_response_exactly_once (T : Type) (evs : List (WfrEvent T)) :
    (wfrRun T evs).resolutions.length ≤ 1 ∧
    (evs ≠ [] →
      (wfrRun T evs).resolutions.length = 1 ∧
      (wfrRun T evs).waiters = [] ∧
      (wfrRun T evs).timerActive = false) ∧
    (∀ (d : T) (rest : List (WfrEvent T)),
      wfrRun T (WfrEvent.notify d :: rest) = ⟨[], false, [WaitResult.ok d]⟩) ∧
    (∀ rest : List (WfrEvent T),
      wfrRun T (WfrEvent.timerFire :: rest) =
        ⟨[], false, [WaitResult.timeout]⟩) := by
  refine ⟨?_, ?_, wfrRun_notify_head T, wfrRun_timer_head T⟩
  · cases evs with
    | nil => simp [wfrRun, wfrInit]
    | cons e rest =>
      cases e with
      | notify d => rw [wfrRun_notify_head]; simp
      | timerFire => rw [wfrRun_timer_head]; simp
  · intro hne
    cases evs with
    | nil => exact absurd rfl hne
    | cons e rest =>
      cases e with
      | notify d => rw [wfrRun_notify_head]; exact ⟨rfl, rfl, rfl⟩
      | timerFire => rw [wfrRun_timer_head]; exact ⟨rfl, rfl, rfl⟩

/-- Witness for C1 at a concrete trace: one notification with payload `3`. -/
theorem c1_wait_for_response_exactly_once_witness :
    ([WfrEvent.notify (3 : Nat)] ≠ ([] : List (WfrEvent Nat))) ∧
    (wfrRun Nat [WfrEvent.notify 3]).resolutions.length = 1 ∧
    (wfrRun Nat [WfrEvent.notify 3]).waiters = [] := by
  have h := (c1_wait_for_response_exactly_once Nat
    [WfrEvent.notify 3]).2.1 (by decide)
  exact ⟨by decide, h.1, h.2.1⟩

/-- Counterexample to C2 as stated: with one registered callback (id `0`)
whose body synchronously registers a fresh callback (id `1`) on the same
key, `notifyFirst` completes with the new callback no longer registered —
the write-back of the precomputed `rest` (here, deleting the key) discards
the registration made during the notification. -/
def c2Effects : Nat → List MgrOp :=
  fun c => if c = 0 then [MgrOp.register 1] else []

theorem c2_copy_on_write_counterexample :
    1 ∈ (notifyFirstRun c2Effects [0]).during ∧
    1 ∉ (notifyFirstRun c2Effects [0]).after := by
  decide

/-- C2 amended: every mutation builds a new list, so the iteration itself is
over the entry snapshot and cannot be corrupted: whatever the callbacks do
to the manager, `notifyFirst` invokes exactly the earliest-registered
callback and `notifyAll` invokes exactly the entry waiters, in order.
However, same-key registrations or cancellations performed synchronously
inside a callback are discarded when the notification writes back its
precomputed list: after `notifyFirst` the stored list is exactly the entry
list's tail, and after `notifyAll` it is empty. -/
theorem c2_copy_on_write_amended (eff : Nat → List MgrOp) (l : List Nat) :
    (notifyFirstRun eff l).invoked = l.take 1 ∧
    (notifyFirstRun eff l).after = l.tail ∧
    (notifyAllRun eff l).invoked = l ∧
    (notifyAllRun eff l).after = [] := by
  cases l <;> simp [notifyFirstRun, notifyAllRun]

/-- C3: with `n` callbacks registered on a key, `k ≤ n` `notifyFirst` calls
invoke exactly the first `k` callbacks in registration (FIFO) order and
leave the remaining `n - k` registered; `n` calls invoke all of them, and
when the callbacks are distinct each is invoked exactly once. -/
theorem c3_notify_first_fifo (l : List Nat) (k : Nat) :
    (notifyFirstIter k l).1 = l.take k ∧
    (notifyFirstIter k l).2 = l.drop k ∧
    (notifyFirstIter l.length l).1 = l ∧
    (notifyFirstIter l.length l).2 = [] ∧
    (l.Nodup → ∀ c ∈ (notifyFirstIter l.length l).1,
      (notifyFirstIter l.length l).1.count c = 1) := by
  refine ⟨?_, ?_, ?_, ?_, ?_⟩
  · rw [notifyFirstIter_spec]
  · rw [notifyFirstIter_spec]
  · rw [notifyFirstIter_spec]; simp
  · rw [notifyFirstIter_spec]; simp
  · intro hnd c hc
    rw [notifyFirstIter_spec] at hc ⊢
    simp only [List.take_length] at hc ⊢
    exact List.count_eq_one_of_mem hnd hc

/-- Witness for C3 at a concrete registration list: callbacks `5` then `7`,
two `notifyFirst` calls. -/
theorem c3_notify_first_fifo_witness :
    (notifyFirstIter 2 [5, 7]).1 = [5, 7] ∧
    (notifyFirstIter 2 [5, 7]).1.count 5 = 1 := by
  have hall := (c3_notify_first_fifo [5, 7] 2).2.2.1
  have hcount := (c3_notify_first_fifo [5, 7] 2).2.2.2.2 (by decide) 5 (by decide)
  exact ⟨hall, hcount⟩

theorem generateId_data (pre : String) (draws : List (Fin 36)) :
    (generateId pre draws).data =
      pre.data ++ '_' ::
        (draws.map fun d => idChars.get (Fin.cast idChars_length.symm d)) := by
  simp [generateId, idSuffix, String.append, String.mk]

/-- The alphabet-indexing function of `generateId` is injective, because the
36 characters are pairwise distinct. -/
theorem idChar_injective :
    Function.Injective
      (fun d : Fin 36 => idChars.get (Fin.cast idChars_length.symm d)) := by
  intro d1 d2 h
  have hget := List.nodup_iff_injective_get.mp idChars_nodup h
  have hval : (d1 : Nat) = (d2 : Nat) := congrArg Fin.val hget
  exact Fin.ext hval

/-- Counterexample to C5 as stated: ids are produced by `Math.random` draws
with no check against previously issued ids, so a run in which two
question-creation calls happen to make identical draws issues the same id
twice.  The claimed universal "no two questions in the same session ever
receive the same id" fails on that run. -/
theorem c5_unique_ids_counterexample :
    ¬ (∀ runs : List (List (Fin 36)),
        (runs.map (generateId "q")).Pairwise (fun a b => a ≠ b)) := by
  intro h
  have h2 := h [List.replicate 8 (0 : Fin 36), List.replicate 8 (0 : Fin 36)]
  rw [List.map_cons, List.map_cons, List.map_nil] at h2
  exact List.rel_of_pairwise_cons h2 (List.mem_cons_self _ _) rfl

/-- C5 amended: every generated id is the fixed prefix, an underscore, and
exactly 8 characters drawn from the lowercase-alphanumeric alphabet, and
`generateId` is injective in its random draws — two creation calls receive
distinct ids whenever their draw sequences differ, but the code performs no
uniqueness check, so calls with identical draws collide. -/
theorem c5_id_format_amended (pre : String) (draws : List (Fin 36))
    (h : draws.length = 8) :
    generateId pre draws = pre ++ "_" ++ idSuffix draws ∧
    (idSuffix draws).length = 8 ∧
    (idSuffix draws).toList.all (fun ch => idChars.contains ch) = true ∧
    (∀ draws' : List (Fin 36),
      generateId pre draws = generateId pre draws' → draws = draws') := by
  refine ⟨rfl, ?_, ?_, ?_⟩
  · simp [idSuffix, String.length, h]
  · rw [List.all_eq_true]
    intro ch hch
    simp only [idSuffix, String.toList, String.mk, List.mem_map] at hch
    obtain ⟨d, _, hd⟩ := hch
    exact List.elem_eq_true_of_mem (hd ▸ idChars.get_mem _ _)
  · intro draws' heq
    have hdata := congrArg String.data heq
    rw [generateId_data, generateId_data] at hdata
    have hmap := List.append_cancel_left hdata
    have hmap2 := List.cons_injective hmap
    exact List.map_injective_iff.mpr idChar_injective hmap2

/-- Witness for C5's amended claim at prefix `"q"` and the all-zero draw
sequence. -/
theorem c5_id_format_amended_witness :
    (List.replicate 8 (0 : Fin 36)).length = 8 ∧
    generateId "q" (List.replicate 8 (0 : Fin 36)) =
      "q" ++ "_" ++ idSuffix (List.replicate 8 (0 : Fin 36)) ∧
    (idSuffix (List.replicate 8 (0 : Fin 36))).length = 8 := by
  refine ⟨by decide, ?_, ?_⟩
  · exact (c5_id_format_amended "q" (List.replicate 8 (0 : Fin 36)) (by decide)).1
  · exact (c5_id_format_amended "q" (List.replicate 8 (0 : Fin 36)) (by decide)).2.1

/-- The C4 scenario: three questions pushed in order `q1`, `q2`, `q3`, then
answers arriving for `q3` first and `q1` second. -/
def c4Session : MSession :=
  handleIncoming
    (handleIncoming
      (pushQuestion (pushQuestion (pushQuestion emptySession "q1") "q2") "q3")
      "q3" (JVal.str "a3"))
    "q1" (JVal.str "a1")

/-- C4: `getNextAnswer` returns answered questions in answer-arrival order,
not question-push order: with `q1`, `q2`, `q3` pushed and `q3` then `q1`
answered, successive calls return `q3` first, then `q1`, and then report
status `pending` for the still-unanswered `q2`. -/
theorem c4_get_next_answer_arrival_order :
    (getNextAnswer c4Session).1 = NextAnswer.found "q3" (JVal.str "a3") ∧
    (getNextAnswer (getNextAnswer c4Session).2).1 =
      NextAnswer.found "q1" (JVal.str "a1") ∧
    (getNextAnswer (getNextAnswer (getNextAnswer c4Session).2).2).1 =
      NextAnswer.pendingWork := by
  exact ⟨rfl, rfl, rfl⟩

theorem caught_eq (r : Except String Unit) : caught r = Except.ok () := by
  cases r <;> rfl

theorem awaitAllE_caught (tOut : Nat → Except String Unit) (l : List Nat) :
    awaitAllE (l.map fun i => caught (tOut i)) = Except.ok () := by
  induction l with
  | nil => rfl
  | cons x xs ih => rw [List.map_cons, caught_eq]; exact ih

/-- The loop always returns normally: spawned-task outcomes are wrapped in
`caught`, so no `Promise.all` it performs can reject. -/
theorem loopGo_ok (stQ : Nat → Option BState) (ansQ : Nat → GNARes)
    (tOut : Nat → Except String Unit) (fuel : Nat) (st : LoopSt) :
    ∃ st', loopGo stQ ansQ tOut fuel st = Except.ok st' := by
  induction fuel generalizing st with
  | zero => exact ⟨st, rfl⟩
  | succ fuel ih =>
    simp only [loopGo, awaitAllE_caught]
    split
    · exact ⟨_, rfl⟩
    · split
      · split
        · exact ih _
        · exact ⟨_, rfl⟩
        · exact ih _
      · split
        · exact ih _
        · exact ih _

/-- The loop's behaviour does not depend on the outcomes of the spawned
tasks. -/
theorem loopGo_tOut_irrel (stQ : Nat → Option BState) (ansQ : Nat → GNARes)
    (tOut tOut' : Nat → Except String Unit) (fuel : Nat) (st : LoopSt) :
    loopGo stQ ansQ tOut fuel st = loopGo stQ ansQ tOut' fuel st := by
  induction fuel generalizing st with
  | zero => rfl
  | succ fuel ih =>
    simp only [loopGo, awaitAllE_caught]
    split
    · rfl
    · split
      · split
        · exact ih _
        · rfl
        · exact ih _
      · split
        · exact ih _
        · exact ih _

/-- Each loop entry increments `iterations` once, so the fuel bounds the
final count. -/
theorem loopGo_iterations_le (stQ : Nat → Option BState) (ansQ : Nat → GNARes)
    (tOut : Nat → Except String Unit) (fuel : Nat) (st st' : LoopSt)
    (h : loopGo stQ ansQ tOut fuel st = Except.ok st') :
    st'.iterations ≤ st.iterations + fuel := by
  induction fuel generalizing st with
  | zero =>
    simp only [loopGo] at h
    cases h
    omega
  | succ fuel ih =>
    simp only [loopGo, awaitAllE_caught] at h
    split at h
    · cases h; simp
    · split at h
      · split at h
        · have := ih _ h; simp at this; omega
        · cases h; simp
        · have := ih _ h; simp at this; omega
      · split at h
        · have := ih _ h; simp at this; omega
        · have := ih _ h; simp at this; omega

theorem spawnedOf_append (a b : List Ev) :
    spawnedOf (a ++ b) = spawnedOf a ++ spawnedOf b := by
  induction a with
  | nil => rfl
  | cons e rest ih => cases e <;> simp [spawnedOf, ih]

theorem awaitedOf_append (a b : List Ev) :
    awaitedOf (a ++ b) = awaitedOf a ++ awaitedOf b := by
  induction a with
  | nil => rfl
  | cons e rest ih => cases e <;> simp [awaitedOf, ih]

/-- Loop invariant: every task spawned so far has either been awaited by a
`Promise.all` already, or is still in the `pendingProcessing` array. -/
theorem loopGo_task_inv (stQ : Nat → Option BState) (ansQ : Nat → GNARes)
    (tOut : Nat → Except String Unit) (fuel : Nat) (st st' : LoopSt)
    (h : loopGo stQ ansQ tOut fuel st = Except.ok st')
    (hinv : ∀ t, t ∈ spawnedOf st.trace →
      t ∈ awaitedOf st.trace ∨ t ∈ st.pending) :
    ∀ t, t ∈ spawnedOf st'.trace → t ∈ awaitedOf st'.trace ∨ t ∈ st'.pending := by
  induction fuel generalizing st with
  | zero =>
    simp only [loopGo] at h
    cases h
    exact hinv
  | succ fuel ih =>
    simp only [loopGo, awaitAllE_caught] at h
    split at h
    · cases h; exact hinv
    · split at h
      · split at h
        · refine ih _ h ?_
          intro t ht
          simp only [spawnedOf_append, awaitedOf_append, spawnedOf, awaitedOf,
            List.append_nil, List.mem_append, List.not_mem_nil, or_false] at ht ⊢
          have := hinv t ht
          tauto
        · cases h; exact hinv
        · exact ih _ h hinv
      · split at h
        · exact ih _ h hinv
        · refine ih _ h ?_
          intro t ht
          simp only [spawnedOf_append, awaitedOf_append, spawnedOf, awaitedOf,
            List.append_nil, List.mem_append, List.not_mem_nil, or_false,
            List.mem_singleton] at ht ⊢
          rcases ht with ht | ht
          · have := hinv t ht
            tauto
          · tauto

/-- A session that is complete (or unknown) on entry stops the loop in its
first iteration, without any `getNextAnswer` call. -/
theorem loopGo_complete_stop (stQ : Nat → Option BState) (ansQ : Nat → GNARes)
    (tOut : Nat → Except String Unit) (m : Nat) (st : LoopSt)
    (hc : isCompleteOf (stQ st.sCount) = true) :
    loopGo stQ ansQ tOut (m + 1) st = Except.ok
      ⟨st.iterations + 1, st.sCount + 1, st.aCount, st.pending, st.trace⟩ := by
  simp [loopGo, hc]

/-- Unfolding `collectAnswers` once the loop's result is known. -/
theorem collectAnswers_eq (stQ : Nat → Option BState) (ansQ : Nat → GNARes)
    (tOut : Nat → Except String Unit) (m : Nat) (st : LoopSt)
    (hst : loopGo stQ ansQ tOut m initLoopSt = Except.ok st) :
    collectAnswers stQ ansQ tOut m = Except.ok
      { iterations := st.iterations, answerCalls := st.aCount,
        state := stQ st.sCount,
        allComplete :=
          match stQ st.sCount with
          | some s => s.branches.all (fun b => b == BStatus.done)
          | none => false,
        trace := st.trace ++
          [Ev.awaitTasks st.pending, Ev.readState (stQ st.sCount)] } := by
  simp only [collectAnswers, hst, awaitAllE_caught]

theorem collectAnswers_ok (stQ : Nat → Option BState) (ansQ : Nat → GNARes)
    (tOut : Nat → Except String Unit) (m : Nat) :
    ∃ r, collectAnswers stQ ansQ tOut m = Except.ok r := by
  obtain ⟨st, hst⟩ := loopGo_ok stQ ansQ tOut m initLoopSt
  exact ⟨_, collectAnswers_eq stQ ansQ tOut m st hst⟩

/-- C6: control flow of the answer-collection loop.  With the default cap
the loop performs at most 50 iterations (and in general at most the fuel
plus the entry count); when the session is complete on entry the loop stops
without calling `getNextAnswer`; a `timeout` outcome from `getNextAnswer`
stops the loop; a `none_pending` outcome awaits every task in the in-flight
set and continues with it emptied. -/
theorem c6_collect_answers_loop_control (stQ : Nat → Option BState)
    (ansQ : Nat → GNARes) (tOut : Nat → Except String Unit) (m : Nat)
    (st : LoopSt) :
    (∀ r, collectAnswersDefault stQ ansQ tOut = Except.ok r →
      r.iterations ≤ 50) ∧
    (∀ st', loopGo stQ ansQ tOut m st = Except.ok st' →
      st'.iterations ≤ st.iterations + m) ∧
    (isCompleteOf (stQ st.sCount) = true →
      loopGo stQ ansQ tOut (m + 1) st = Except.ok
        ⟨st.iterations + 1, st.sCount + 1, st.aCount, st.pending, st.trace⟩) ∧
    (isCompleteOf (stQ st.sCount) = false →
      (ansQ st.aCount).completed = false →
      (ansQ st.aCount).status = GStatus.timeout →
      loopGo stQ ansQ tOut (m + 1) st = Except.ok
        ⟨st.iterations + 1, st.sCount + 1, st.aCount + 1, st.pending,
         st.trace⟩) ∧
    (isCompleteOf (stQ st.sCount) = false →
      (ansQ st.aCount).completed = false →
      (ansQ st.aCount).status = GStatus.none_pending →
      loopGo stQ ansQ tOut (m + 1) st =
        loopGo stQ ansQ tOut m
          ⟨st.iterations + 1, st.sCount + 1, st.aCount + 1, [],
           st.trace ++ [Ev.awaitTasks st.pending]⟩) := by
  refine ⟨?_, ?_, ?_, ?_, ?_⟩
  · intro r hr
    obtain ⟨st0, hst0⟩ := loopGo_ok stQ ansQ tOut 50 initLoopSt
    rw [collectAnswersDefault, collectAnswers_eq stQ ansQ tOut 50 st0 hst0] at hr
    cases hr
    simpa using loopGo_iterations_le stQ ansQ tOut 50 initLoopSt st0 hst0
  · intro st' h
    exact loopGo_iterations_le stQ ansQ tOut m st st' h
  · intro hc
    exact loopGo_complete_stop stQ ansQ tOut m st hc
  · intro hc hcomp hstatus
    simp [loopGo, hc, hcomp, hstatus]
  · intro hc hcomp hstatus
    simp [loopGo, hc, hcomp, hstatus, awaitAllE_caught]

/-- Witness for C6 at concrete oracles: a session already complete on entry
stops the loop with no `getNextAnswer` call, and a `timeout` result stops it
after one call. -/
theorem c6_collect_answers_loop_control_witness :
    loopGo (fun _ => some ⟨[BStatus.done]⟩)
      (fun _ => ⟨false, GStatus.timeout, none, none⟩)
      (fun _ => Except.ok ()) 1 initLoopSt = Except.ok ⟨1, 1, 0, [], []⟩ ∧
    loopGo (fun _ => some ⟨[BStatus.exploring]⟩)
      (fun _ => ⟨false, GStatus.timeout, none, none⟩)
      (fun _ => Except.ok ()) 1 initLoopSt = Except.ok ⟨1, 1, 1, [], []⟩ := by
  constructor
  · exact (c6_collect_answers_loop_control (fun _ => some ⟨[BStatus.done]⟩)
      (fun _ => ⟨false, GStatus.timeout, none, none⟩)
      (fun _ => Except.ok ()) 0 initLoopSt).2.2.1 rfl
  · exact (c6_collect_answers_loop_control (fun _ => some ⟨[BStatus.exploring]⟩)
      (fun _ => ⟨false, GStatus.timeout, none, none⟩)
      (fun _ => Except.ok ()) 0 initLoopSt).2.2.2.1 rfl rfl rfl

/-- C7: `collectAnswers` reads the final state only after a `Promise.all`
over the remaining in-flight set, and every task ever spawned is covered by
some await: the trace ends with an await of the remaining tasks followed by
the final state read, and every spawned task id appears in an awaited
set. -/
theorem c7_inflight_tasks_awaited (stQ : Nat → Option BState)
    (ansQ : Nat → GNARes) (tOut : Nat → Except String Unit) (m : Nat)
    (r : CollectResult) (h : collectAnswers stQ ansQ tOut m = Except.ok r) :
    (∃ pre p s, r.trace = pre ++ [Ev.awaitTasks p, Ev.readState s] ∧
      r.state = s) ∧
    (∀ t, t ∈ spawnedOf r.trace → t ∈ awaitedOf r.trace) := by
  obtain ⟨st, hst⟩ := loopGo_ok stQ ansQ tOut m initLoopSt
  rw [collectAnswers_eq stQ ansQ tOut m st hst] at h
  cases h
  constructor
  · exact ⟨st.trace, st.pending, stQ st.sCount, rfl, rfl⟩
  · intro t ht
    have hinv := loopGo_task_inv stQ ansQ tOut m initLoopSt st hst
      (by intro t h0; simp [initLoopSt, spawnedOf] at h0)
    simp only [spawnedOf_append, awaitedOf_append, List.mem_append] at ht ⊢
    rcases ht with ht | ht
    · rcases hinv t ht with haw | hp
      · exact Or.inl haw
      · exact Or.inr (by simp [awaitedOf, hp])
    · simp [spawnedOf] at ht

/-- Concrete run for the C7 witness: one completed answer (task `0` spawned)
followed by a timeout. -/
def c7stQ : Nat → Option BState := fun _ => some ⟨[BStatus.exploring]⟩

def c7ansQ : Nat → GNARes := fun k =>
  if k = 0 then ⟨true, GStatus.pending, some "qx", some (JVal.str "a")⟩
  else ⟨false, GStatus.timeout, none, none⟩

def c7res : CollectResult :=
  ⟨2, 2, some ⟨[BStatus.exploring]⟩, false,
   [Ev.spawn 0, Ev.awaitTasks [0],
    Ev.readState (some ⟨[BStatus.exploring]⟩)]⟩

/-- Witness for C7 at the concrete run: the spawned task `0` is awaited. -/
theorem c7_inflight_tasks_awaited_witness :
    (0 : Nat) ∈ awaitedOf c7res.trace := by
  have h := c7_inflight_tasks_awaited c7stQ c7ansQ (fun _ => Except.ok ()) 5
    c7res rfl
  exact h.2 0 (by decide)

/-- C8: a rejection of any spawned `processAnswer` task is swallowed by the
attached `.catch`: `collectAnswers` always returns normally, and its entire
result is independent of the task outcomes — sibling branches and later
iterations proceed identically whether tasks fail or not. -/
theorem c8_task_failures_never_propagate (stQ : Nat → Option BState)
    (ansQ : Nat → GNARes) (tOut tOut' : Nat → Except String Unit) (m : Nat) :
    (∃ r, collectAnswers stQ ansQ tOut m = Except.ok r) ∧
    collectAnswers stQ ansQ tOut m = collectAnswers stQ ansQ tOut' m := by
  refine ⟨collectAnswers_ok stQ ansQ tOut m, ?_⟩
  obtain ⟨st, hst⟩ := loopGo_ok stQ ansQ tOut m initLoopSt
  have hst' : loopGo stQ ansQ tOut' m initLoopSt = Except.ok st :=
    (loopGo_tOut_irrel stQ ansQ tOut' tOut m initLoopSt).trans hst
  rw [collectAnswers_eq stQ ansQ tOut m st hst,
    collectAnswers_eq stQ ansQ tOut' m st hst']

/-- C9: when the state store does not know the session
(`getSession` always `null`), `collectAnswers` treats it as complete and
exits on its first iteration without calling `getNextAnswer`, returning a
null state with `allComplete = false`, and `await_brainstorm_complete`
reports the `"Error: Session lost"` result instead of throwing. -/
theorem c9_session_lost_reported (ansQ : Nat → GNARes)
    (tOut : Nat → Except String Unit) (pushOk : Bool) (review : GNARes) :
    ∃ r, collectAnswersDefault (fun _ => none) ansQ tOut = Except.ok r ∧
      r.iterations = 1 ∧ r.answerCalls = 0 ∧ r.state = none ∧
      r.allComplete = false ∧
      awaitBrainstormOutcome r pushOk review = AwaitOutcome.sessionLost := by
  have hloop : loopGo (fun _ => none) ansQ tOut 50 initLoopSt =
      Except.ok ⟨1, 1, 0, [], []⟩ :=
    loopGo_complete_stop (fun _ => none) ansQ tOut 49 initLoopSt rfl
  have hca := collectAnswers_eq (fun _ => none) ansQ tOut 50
    ⟨1, 1, 0, [], []⟩ hloop
  exact ⟨_, hca, rfl, rfl, rfl, rfl, rfl⟩

/-- C10: `waitForReviewApproval` reports `approved = true` exactly when the
awaited result is completed with a record response whose `approved` field is
strictly `true` or whose `choice` field is the string `"yes"`; every other
outcome — timeout, missing or falsy response, non-record response — yields
`approved = false` with empty feedback rather than a failure; and for record
responses the feedback comes from the `annotations` entries when that field
is a record, otherwise from the `feedback` or `text` field. -/
theorem c10_review_approval (res : GNARes) :
    ((waitForReviewApprovalF res).approved = true ↔
      (res.completed = true ∧ ∃ fields, res.response = some (JVal.obj fields) ∧
        (isTrueVal (lookupField fields "approved") = true ∨
         isYesVal (lookupField fields "choice") = true))) ∧
    ((res.completed = false ∨ respTruthy res.response = false ∨
        respIsRecord res.response = false) →
      waitForReviewApprovalF res = ⟨false, ""⟩) ∧
    (∀ fields, res.completed = true → res.response = some (JVal.obj fields) →
      (waitForReviewApprovalF res).feedback = reviewFeedback fields) := by
  obtain ⟨c, stt, q, resp⟩ := res
  cases c with
  | false =>
    refine ⟨by simp [waitForReviewApprovalF], fun _ => by simp [waitForReviewApprovalF], ?_⟩
    intro fields hc
    exact absurd hc (by simp)
  | true =>
    match resp with
    | none =>
      refine ⟨by simp [waitForReviewApprovalF, respTruthy, respIsRecord], ?_, ?_⟩
      · intro _; simp [waitForReviewApprovalF, respTruthy, respIsRecord]
      · intro fields _ hr; exact absurd hr (by simp)
    | some JVal.null =>
      refine ⟨by simp [waitForReviewApprovalF, respTruthy, truthy, respIsRecord], ?_, ?_⟩
      · intro _; simp [waitForReviewApprovalF, respTruthy, truthy, respIsRecord]
      · intro fields _ hr; simp at hr
    | some (JVal.bool b) =>
      refine ⟨by cases b <;> simp [waitForReviewApprovalF, respTruthy, truthy, respIsRecord], ?_, ?_⟩
      · intro _; cases b <;> simp [waitForReviewApprovalF, respTruthy, truthy, respIsRecord]
      · intro fields _ hr; simp at hr
    | some (JVal.num n) =>
      refine ⟨by simp [waitForReviewApprovalF, respTruthy, truthy, respIsRecord], ?_, ?_⟩
      · intro _; simp [waitForReviewApprovalF, respTruthy, truthy, respIsRecord]
      · intro fields _ hr; simp at hr
    | some (JVal.str s) =>
      refine ⟨by simp [waitForReviewApprovalF, respTruthy, truthy, respIsRecord], ?_, ?_⟩
      · intro _; simp [waitForReviewApprovalF, respTruthy, truthy, respIsRecord]
      · intro fields _ hr; simp at hr
    | some (JVal.arr l) =>
      refine ⟨by simp [waitForReviewApprovalF, respTruthy, truthy, respIsRecord], ?_, ?_⟩
      · intro _; simp [waitForReviewApprovalF, respTruthy, truthy, respIsRecord]
      · intro fields _ hr; simp at hr
    | some (JVal.obj f) =>
      refine ⟨?_, ?_, ?_⟩
      · show (isTrueVal (lookupField f "approved") ||
            isYesVal (lookupField f "choice")) = true ↔ _
        rw [Bool.or_eq_true]
        constructor
        · intro h
          exact ⟨rfl, f, rfl, h⟩
        · rintro ⟨-, fields, heq, h⟩
          obtain rfl : fields = f := by
            injection heq with heq2
            injection heq2 with heq3
            exact heq3.symm
          exact h
      · intro h
        rcases h with h | h | h
        · exact absurd h (by simp)
        · exact absurd h (by simp [respTruthy, truthy])
        · exact absurd h (by simp [respIsRecord])
      · intro fields _ hr
        obtain rfl : fields = f := by
          injection hr with hr2
          injection hr2 with hr3
          exact hr3.symm
        rfl

/-- Witness for C10 at concrete results: a timed-out (non-completed) result
yields `{approved: false, feedback: ""}`, and a completed record response
with `approved: true` yields `approved = true`. -/
theorem c10_review_approval_witness :
    waitForReviewApprovalF ⟨false, GStatus.timeout, none, none⟩ =
      ⟨false, ""⟩ ∧
    (waitForReviewApprovalF ⟨true, GStatus.pending, none,
      some (JVal.obj [("approved", JVal.bool true)])⟩).approved = true := by
  constructor
  · exact (c10_review_approval ⟨false, GStatus.timeout, none, none⟩).2.1
      (Or.inl rfl)
  · exact (c10_review_approval ⟨true, GStatus.pending, none,
      some (JVal.obj [("approved", JVal.bool true)])⟩).1.mpr
      ⟨rfl, [("approved", JVal.bool true)], rfl, Or.inl rfl⟩

end Brainstormer
